import Mathlib

/-!
Shallow embedding of the chunked-translation pipeline of the `translator`
repository (`backend/app/services/translation_service.py` and
`backend/app/api/translation_routes.py`), with theorems settling the
specification claims about it.

Modelling conventions: text is `List Char`, durations are `ℚ`, and the
external translation API, the random jitter draws and the document
assembler are explicit oracle parameters, so every definition is
executable on concrete inputs.
-/

namespace Translator

/-! ### Chunker

`translation_service.translate_chapter`, lines 149-151:

    chunks = []
    for i in range(0, len(chapter_content), chunk_size):
        chunks.append(chapter_content[i:i+chunk_size])
-/

/-- The chunk size hard-coded in `translate_chapter` (`chunk_size = 1500`). -/
def chunk_size : Nat := 1500

/-- The chunker: `splitChunks S text` is the list of slices `text[i:i+S]` for
`i = 0, S, 2S, ...` exactly as the Python loop produces them.  Python's
`range` with step `0` raises `ValueError`; that branch is mapped to `[]`
here and lies outside every claim (all claims assume `S > 0`). -/
def splitChunks (S : Nat) (text : List Char) : List (List Char) :=
  if h : S = 0 ∨ text = [] then [] else
    text.take S :: splitChunks S (text.drop S)
termination_by text.length
decreasing_by
  push_neg at h
  obtain ⟨hS, ht⟩ := h
  simp only [List.length_drop]
  exact Nat.sub_lt (List.length_pos.mpr ht) (Nat.pos_of_ne_zero hS)

theorem splitChunks_nil (S : Nat) : splitChunks S [] = [] := by
  rw [splitChunks]; simp

theorem splitChunks_cons (S : Nat) (hS : S ≠ 0) (text : List Char)
    (ht : text ≠ []) :
    splitChunks S text = text.take S :: splitChunks S (text.drop S) := by
  rw [splitChunks]; simp [hS, ht]

/-- Concatenating the chunks in order reproduces the text. -/
theorem splitChunks_join (S : Nat) (hS : 0 < S) (text : List Char) :
    (splitChunks S text).flatten = text := by
  induction text using splitChunks.induct S with
  | case1 text h =>
    rcases h with h | h
    · exact absurd h (Nat.pos_iff_ne_zero.mp hS)
    · subst h; simp [splitChunks_nil]
  | case2 text h ih =>
    push_neg at h
    rw [splitChunks_cons S h.1 text h.2]
    simp [ih]

/-- Every chunk has length at most `S`. -/
theorem splitChunks_length_le (S : Nat) (text : List Char) :
    ∀ c ∈ splitChunks S text, c.length ≤ S := by
  induction text using splitChunks.induct S with
  | case1 text h =>
    rw [splitChunks]
    simp [h]
  | case2 text h ih =>
    push_neg at h
    rw [splitChunks_cons S h.1 text h.2]
    intro c hc
    rcases List.mem_cons.mp hc with hc | hc
    · simp [hc]
    · exact ih c hc

/-- Every chunk except possibly the last has length exactly `S`. -/
theorem splitChunks_length_eq (S : Nat) (text : List Char) :
    ∀ i : Nat, i + 1 < (splitChunks S text).length →
      ((splitChunks S text).getD i []).length = S := by
  induction text using splitChunks.induct S with
  | case1 text h =>
    rw [splitChunks]
    simp [h]
  | case2 text h ih =>
    push_neg at h
    rw [splitChunks_cons S h.1 text h.2]
    intro i hi
    match i with
    | 0 =>
      -- the head chunk is `text.take S`; a successor chunk exists, so the
      -- tail of the text is nonempty, hence `text.length ≥ S`
      simp only [List.getD_cons_zero, List.length_take]
      have htail : splitChunks S (text.drop S) ≠ [] := by
        intro hnil
        simp [hnil] at hi
      have : text.drop S ≠ [] := by
        intro hnil
        exact htail (by rw [hnil, splitChunks_nil])
      have hlen : S < text.length := by
        by_contra hle
        push_neg at hle
        exact this (List.drop_eq_nil_of_le hle)
      exact Nat.min_eq_left (Nat.le_of_lt hlen)
    | i + 1 =>
      simp only [List.getD_cons_succ]
      exact ih i (by simpa using hi)

/-- C2: for every text `T` and every `S > 0`, the chunker yields a finite,
deterministic sequence of segments (it is a function into `List`), each of
length at most `S`, all but possibly the final one of length exactly `S`,
and concatenating the segments in order reproduces `T` exactly (which also
expresses contiguity and non-overlap). -/
theorem chunker_round_trip (S : Nat) (hS : 0 < S) (text : List Char) :
    (splitChunks S text).flatten = text
      ∧ (∀ c ∈ splitChunks S text, c.length ≤ S)
      ∧ (∀ i : Nat, i + 1 < (splitChunks S text).length →
          ((splitChunks S text).getD i []).length = S) :=
  ⟨splitChunks_join S hS text, splitChunks_length_le S text,
    splitChunks_length_eq S text⟩

theorem chunker_round_trip_witness :
    (0 : Nat) < 3
      ∧ ((splitChunks 3 ['a', 'b', 'c', 'd']).flatten = ['a', 'b', 'c', 'd']
        ∧ (∀ c ∈ splitChunks 3 ['a', 'b', 'c', 'd'], c.length ≤ 3)
        ∧ (∀ i : Nat, i + 1 < (splitChunks 3 ['a', 'b', 'c', 'd']).length →
            ((splitChunks 3 ['a', 'b', 'c', 'd']).getD i []).length = 3)) :=
  ⟨by decide, chunker_round_trip 3 (by decide) ['a', 'b', 'c', 'd']⟩

/-! ### Translation client and retry layer

`translation_service.translate_text` classifies provider errors by message
substring ("Network connection issue", "Rate limit exceeded",
"Authentication error", otherwise unclassified); `translate_text_with_retry`
(lines 23-65) retries the retryable classes with exponential backoff and
jitter.  The external call is modelled as an oracle giving the outcome of
each attempt, and the `random.uniform(0, 0.1*retry_delay)` draws as a
second oracle `jitter`. -/

/-- The four error classes produced by `translate_text`'s classifier. -/
inductive TranslationError where
  | networkFailure (msg : String)
  | rateLimited (msg : String)
  | authFailure (msg : String)
  | unknown (msg : String)
deriving DecidableEq

/-- Line 44: only "Network connection issue" and "Rate limit exceeded"
messages are retried. -/
def TranslationError.retryable : TranslationError → Bool
  | .networkFailure _ => true
  | .rateLimited _ => true
  | .authFailure _ => false
  | .unknown _ => false

/-- Constant `MAX_RETRIES = 5` (line 16). -/
def MAX_RETRIES : Nat := 5

/-- Constant `INITIAL_RETRY_DELAY = 1` second (line 17). -/
def INITIAL_RETRY_DELAY : ℚ := 1

/-- Constant `MAX_RETRY_DELAY = 60` seconds (line 18). -/
def MAX_RETRY_DELAY : ℚ := 60

/-- How `translate_text_with_retry` finishes. -/
inductive RetryOutcome where
  | ok (translated : List Char)
  | failedAfterRetries (last : TranslationError)
  | surfaced (e : TranslationError)
deriving DecidableEq

/-- Observable behaviour of one `translate_text_with_retry` run: how many
times `translate_text` was invoked, the sleep durations requested of
`asyncio.sleep` in order, and the final outcome. -/
structure RetryResult where
  attempts : Nat
  sleeps : List ℚ
  outcome : RetryOutcome
deriving DecidableEq

/-- The `while retry_count < MAX_RETRIES` loop of
`translate_text_with_retry`, with `remaining = MAX_RETRIES - retry_count`.
`oracle k` is the outcome of the `(k+1)`-th `translate_text` call and
`jitter k` the jitter drawn after it.  The `remaining = 0` branch is the
loop falling through, which is unreachable from `remaining = MAX_RETRIES`
(the code raises inside the loop as soon as `retry_count` reaches the
maximum); Python would return `None` there. -/
def retryGo (oracle : Nat → Except TranslationError (List Char))
    (jitter : Nat → ℚ) :
    Nat → ℚ → List ℚ → Nat → RetryResult
  | attempt, _, sleeps, 0 =>
    ⟨attempt, sleeps.reverse, .surfaced (.unknown "")⟩
  | attempt, retry_delay, sleeps, remaining + 1 =>
    match oracle attempt with
    | .ok s => ⟨attempt + 1, sleeps.reverse, .ok s⟩
    | .error e =>
      if e.retryable then
        if remaining = 0 then
          ⟨attempt + 1, sleeps.reverse, .failedAfterRetries e⟩
        else
          retryGo oracle jitter (attempt + 1)
            (min (retry_delay * 2) MAX_RETRY_DELAY)
            (min (retry_delay + jitter attempt) MAX_RETRY_DELAY :: sleeps)
            remaining
      else
        ⟨attempt + 1, sleeps.reverse, .surfaced e⟩

/-- Function `translate_text_with_retry` seen from the outside: start with
`retry_count = 0` and `retry_delay = INITIAL_RETRY_DELAY`. -/
def translate_text_with_retry
    (oracle : Nat → Except TranslationError (List Char))
    (jitter : Nat → ℚ) : RetryResult :=
  retryGo oracle jitter 0 INITIAL_RETRY_DELAY [] MAX_RETRIES

theorem retryGo_succ (oracle : Nat → Except TranslationError (List Char))
    (jitter : Nat → ℚ) (attempt : Nat) (retry_delay : ℚ) (sleeps : List ℚ)
    (remaining : Nat) :
    retryGo oracle jitter attempt retry_delay sleeps (remaining + 1) =
      match oracle attempt with
      | .ok s => ⟨attempt + 1, sleeps.reverse, .ok s⟩
      | .error e =>
        if e.retryable then
          if remaining = 0 then
            ⟨attempt + 1, sleeps.reverse, .failedAfterRetries e⟩
          else
            retryGo oracle jitter (attempt + 1)
              (min (retry_delay * 2) MAX_RETRY_DELAY)
              (min (retry_delay + jitter attempt) MAX_RETRY_DELAY :: sleeps)
              remaining
        else
          ⟨attempt + 1, sleeps.reverse, .surfaced e⟩ := rfl

/-- The deterministic backoff floor: the exact sequence of `retry_delay`
values the code computes (`retry_delay = min(retry_delay * 2,
MAX_RETRY_DELAY)` at line 58), which jitter never enters. -/
def backoffFloor : Nat → ℚ
  | 0 => INITIAL_RETRY_DELAY
  | k + 1 => min (backoffFloor k * 2) MAX_RETRY_DELAY

theorem backoffFloor_nonneg (k : Nat) : 0 ≤ backoffFloor k := by
  induction k with
  | zero => norm_num [backoffFloor, INITIAL_RETRY_DELAY]
  | succ k ih =>
    rw [backoffFloor]
    refine le_min (by linarith) (by norm_num [MAX_RETRY_DELAY])

theorem backoffFloor_le_max (k : Nat) : backoffFloor k ≤ MAX_RETRY_DELAY := by
  cases k with
  | zero => norm_num [backoffFloor, INITIAL_RETRY_DELAY, MAX_RETRY_DELAY]
  | succ k => rw [backoffFloor]; exact min_le_right _ _

/-- Invariant of the retry loop when every attempt fails with a retryable
error: entering the loop at attempt `t` with delay `backoffFloor t` and
`0 < r` attempts left, the loop makes exactly `r` further attempts, ends
with `failedAfterRetries` carrying the last error, and the sleeps it
appends total at least the deterministic backoff floor for those
attempts. -/
theorem retryGo_allfail (oracle : Nat → Except TranslationError (List Char))
    (jitter : Nat → ℚ) (errs : Nat → TranslationError)
    (horacle : ∀ k, oracle k = .error (errs k))
    (hretry : ∀ k, (errs k).retryable = true)
    (hjit : ∀ k, 0 ≤ jitter k) :
    ∀ r t (sleeps : List ℚ), 0 < r →
      (retryGo oracle jitter t (backoffFloor t) sleeps r).attempts = t + r
      ∧ (retryGo oracle jitter t (backoffFloor t) sleeps r).outcome
          = .failedAfterRetries (errs (t + r - 1))
      ∧ sleeps.sum + ∑ k in Finset.range (r - 1), backoffFloor (t + k)
          ≤ (retryGo oracle jitter t (backoffFloor t) sleeps r).sleeps.sum := by
  intro r
  induction r with
  | zero => exact fun t sleeps h => absurd h (lt_irrefl 0)
  | succ r ih =>
    intro t sleeps _
    rw [retryGo_succ, horacle t]
    simp only [hretry t, if_true]
    rcases Nat.eq_zero_or_pos r with hr0 | hrpos
    · subst hr0
      rw [if_pos rfl]
      refine ⟨rfl, by simp, ?_⟩
      simp [List.sum_reverse]
    · have hne : r ≠ 0 := Nat.pos_iff_ne_zero.mp hrpos
      simp only [if_neg hne]
      rw [show min (backoffFloor t * 2) MAX_RETRY_DELAY = backoffFloor (t + 1)
        from rfl]
      obtain ⟨h1, h2, h3⟩ :=
        ih (t + 1) (min (backoffFloor t + jitter t) MAX_RETRY_DELAY :: sleeps)
          hrpos
      refine ⟨by rw [h1]; omega, by rw [h2]; congr 2; omega, ?_⟩
      have hst : backoffFloor t
          ≤ min (backoffFloor t + jitter t) MAX_RETRY_DELAY :=
        le_min (by linarith [hjit t]) (backoffFloor_le_max t)
      obtain ⟨m, rfl⟩ : ∃ m, r = m + 1 := ⟨r - 1, by omega⟩
      rw [List.sum_cons] at h3
      have hshift : ∑ k in Finset.range (m + 1), backoffFloor (t + k)
          = (∑ k in Finset.range m, backoffFloor (t + 1 + k)) + backoffFloor t := by
        rw [Finset.sum_range_succ']
        refine congrArg₂ (· + ·) (Finset.sum_congr rfl fun k _ => ?_) (by simp)
        congr 1
        omega
      simp only [Nat.add_sub_cancel] at h3 ⊢
      rw [hshift]
      linarith

/-- C3: when every underlying `translate_text` call fails with a retryable
error (`RateLimited` or `NetworkFailure`), `translate_text_with_retry`
gives up only after exactly `MAX_RETRIES` attempts, the terminal failure
carries the last underlying error, and the total sleep requested is at
least the sum of the deterministic exponential-backoff floor (initial
delay doubling each attempt, capped at the maximum delay, jitter
ignored). -/
theorem retry_exhaustion (oracle : Nat → Except TranslationError (List Char))
    (jitter : Nat → ℚ) (errs : Nat → TranslationError)
    (horacle : ∀ k, oracle k = .error (errs k))
    (hretry : ∀ k, (errs k).retryable = true)
    (hjit : ∀ k, 0 ≤ jitter k) :
    (translate_text_with_retry oracle jitter).attempts = MAX_RETRIES
      ∧ (translate_text_with_retry oracle jitter).outcome
          = .failedAfterRetries (errs (MAX_RETRIES - 1))
      ∧ ∑ k in Finset.range (MAX_RETRIES - 1), backoffFloor k
          ≤ (translate_text_with_retry oracle jitter).sleeps.sum := by
  obtain ⟨h1, h2, h3⟩ :=
    retryGo_allfail oracle jitter errs horacle hretry hjit MAX_RETRIES 0 []
      (by norm_num [MAX_RETRIES])
  rw [show translate_text_with_retry oracle jitter
      = retryGo oracle jitter 0 (backoffFloor 0) [] MAX_RETRIES from rfl]
  refine ⟨by simpa using h1, by simpa using h2, ?_⟩
  simpa using h3

/-- A mock client that always reports a rate limit, mirroring the message
raised at `translation_service.py` line 129. -/
def constRateLimit : Nat → Except TranslationError (List Char) :=
  fun _ => .error (.rateLimited "Rate limit exceeded with OpenAI API. Try again later.")

/-- The error each `constRateLimit` attempt produces. -/
def constRateLimitErr : Nat → TranslationError :=
  fun _ => .rateLimited "Rate limit exceeded with OpenAI API. Try again later."

/-- A degenerate jitter stream drawing `0` every time. -/
def zeroJitter : Nat → ℚ := fun _ => 0

theorem retry_exhaustion_witness :
    (translate_text_with_retry constRateLimit zeroJitter).attempts = MAX_RETRIES
      ∧ (translate_text_with_retry constRateLimit zeroJitter).outcome
          = .failedAfterRetries (constRateLimitErr (MAX_RETRIES - 1))
      ∧ ∑ k in Finset.range (MAX_RETRIES - 1), backoffFloor k
          ≤ (translate_text_with_retry constRateLimit zeroJitter).sleeps.sum :=
  retry_exhaustion constRateLimit zeroJitter constRateLimitErr
    (fun _ => rfl) (fun _ => rfl) (fun _ => le_refl 0)

/-- C7: a non-retryable failure (`AuthFailure` or unclassified `Unknown`)
on the first attempt is surfaced immediately: exactly one underlying call,
no sleep requested, and the surfaced error is the underlying one. -/
theorem fatal_error_surfaced_immediately
    (oracle : Nat → Except TranslationError (List Char)) (jitter : Nat → ℚ)
    (e : TranslationError) (h0 : oracle 0 = .error e)
    (hnr : e.retryable = false) :
    translate_text_with_retry oracle jitter = ⟨1, [], .surfaced e⟩ := by
  rw [show translate_text_with_retry oracle jitter
      = retryGo oracle jitter 0 INITIAL_RETRY_DELAY [] (4 + 1) from rfl]
  rw [retryGo_succ, h0]
  simp [hnr]

/-- A mock client that rejects the key, mirroring the message raised at
`translation_service.py` line 127. -/
def authOracle : Nat → Except TranslationError (List Char) :=
  fun _ => .error (.authFailure "Authentication error with OpenAI API. Check your API key format.")

theorem fatal_error_surfaced_immediately_witness :
    translate_text_with_retry authOracle zeroJitter
      = ⟨1, [], .surfaced (.authFailure
          "Authentication error with OpenAI API. Check your API key format.")⟩ :=
  fatal_error_surfaced_immediately authOracle zeroJitter _ rfl rfl

/-! ### Chapter translator

`translation_service.translate_chapter` (lines 134-168): split at
`chunk_size`, one `translate_text_with_retry` call per chunk, rejoin with
`"\n".join`.  On the success path each retry wrapper call returns the
client's translation of its chunk; `tr` is that per-chunk translation. -/

/-- Function `translate_chapter` on the success path. -/
def translate_chapter (tr : List Char → List Char)
    (chapter_content : List Char) : List Char :=
  List.intercalate ['\n'] ((splitChunks chunk_size chapter_content).map tr)

/-- How many translation calls `translate_chapter` issues: the loop at
lines 157-164 makes exactly one `translate_text_with_retry` call per
chunk. -/
def translate_chapter_calls (chapter_content : List Char) : Nat :=
  (splitChunks chunk_size chapter_content).length

/-- A nonempty text no longer than the segment size is a single chunk. -/
theorem splitChunks_short (S : Nat) (text : List Char) (hS : S ≠ 0)
    (ht : text ≠ []) (hlen : text.length ≤ S) :
    splitChunks S text = [text] := by
  rw [splitChunks_cons S hS text ht, List.take_of_length_le hlen,
    List.drop_eq_nil_of_le hlen, splitChunks_nil]

/-- The number of chunks is `⌈length / S⌉`. -/
theorem splitChunks_count (S : Nat) (hS : 0 < S) (text : List Char) :
    (splitChunks S text).length = (text.length + S - 1) / S := by
  induction text using splitChunks.induct S with
  | case1 text h =>
    rcases h with h | h
    · exact absurd h (Nat.pos_iff_ne_zero.mp hS)
    · subst h
      rw [splitChunks_nil]
      simp [Nat.div_eq_of_lt (Nat.sub_lt hS Nat.one_pos)]
  | case2 text h ih =>
    push_neg at h
    rw [splitChunks_cons S h.1 text h.2]
    have hlen : 1 ≤ text.length := List.length_pos.mpr h.2
    have hrw : text.length + S - 1 = (text.length - 1) + S := by omega
    rw [List.length_cons, ih, List.length_drop, hrw, Nat.add_div_right _ hS]
    rcases le_or_lt text.length S with hle | hlt
    · have h1 : text.length - S = 0 := by omega
      rw [h1, Nat.zero_add, Nat.div_eq_of_lt (by omega),
        Nat.div_eq_of_lt (by omega)]
    · have h2 : text.length - S + S - 1 = (text.length - 1 - S) + S := by omega
      have h3 : (text.length - 1) / S = (text.length - 1 - S) / S + 1 :=
        Nat.div_eq_sub_div hS (by omega)
      rw [h2, Nat.add_div_right _ hS, h3]

/-- Nonempty short content is translated by a single verbatim client
call. -/
theorem translate_chapter_single (tr : List Char → List Char)
    (content : List Char) (hne : content ≠ [])
    (hlen : content.length ≤ chunk_size) :
    translate_chapter tr content = tr content
      ∧ translate_chapter_calls content = 1 := by
  rw [translate_chapter, translate_chapter_calls,
    splitChunks_short chunk_size content (by norm_num [chunk_size]) hne hlen]
  exact ⟨by simp [List.intercalate], rfl⟩

/-- C5 (amended from the counterexample): for nonempty content of length
at most the 1500-character threshold, `translate_chapter` issues exactly
one translation call and returns that call's output verbatim; for longer
content it issues one call per segment — `⌈length / 1500⌉ > 1` of them —
and returns the per-segment translations rejoined in original segment
order with a `"\n"` separator. -/
theorem chapter_translator_calls (tr : List Char → List Char)
    (content : List Char) (hne : content ≠ []) :
    (content.length ≤ chunk_size →
        translate_chapter_calls content = 1
          ∧ translate_chapter tr content = tr content)
      ∧ (chunk_size < content.length →
          translate_chapter_calls content = (content.length + chunk_size - 1) / chunk_size
            ∧ 1 < translate_chapter_calls content
            ∧ translate_chapter tr content
                = List.intercalate ['\n']
                    ((splitChunks chunk_size content).map tr)) := by
  constructor
  · intro hlen
    obtain ⟨h1, h2⟩ := translate_chapter_single tr content hne hlen
    exact ⟨h2, h1⟩
  · intro hlen
    have hcount : translate_chapter_calls content
        = (content.length + chunk_size - 1) / chunk_size :=
      splitChunks_count chunk_size (by norm_num [chunk_size]) content
    refine ⟨hcount, ?_, rfl⟩
    rw [hcount]
    have hge : 2 ≤ (content.length + chunk_size - 1) / chunk_size := by
      have hq : content.length + chunk_size - 1
          = (content.length - 1) + chunk_size := by omega
      rw [hq, Nat.add_div_right _ (by norm_num [chunk_size])]
      have h1 : 1 ≤ (content.length - 1) / chunk_size :=
        (Nat.one_le_div_iff (by norm_num [chunk_size])).mpr (by omega)
      omega
    omega

theorem chapter_translator_calls_witness :
    (['a'] : List Char) ≠ []
      ∧ ((['a'] : List Char).length ≤ chunk_size →
            translate_chapter_calls ['a'] = 1
              ∧ translate_chapter (fun s => s) ['a'] = (fun s : List Char => s) ['a'])
      ∧ (chunk_size < (['a'] : List Char).length →
          translate_chapter_calls ['a']
              = ((['a'] : List Char).length + chunk_size - 1) / chunk_size
            ∧ 1 < translate_chapter_calls ['a']
            ∧ translate_chapter (fun s => s) ['a']
                = List.intercalate ['\n']
                    ((splitChunks chunk_size ['a']).map (fun s => s))) :=
  ⟨by simp, (chapter_translator_calls (fun s => s) ['a'] (by simp)).1,
    (chapter_translator_calls (fun s => s) ['a'] (by simp)).2⟩

/-- C5, counterexample to the claim as stated: empty chapter content has
length `0 ≤ 1500` but the chunk loop runs zero times, so zero translation
calls are issued, not exactly one (and the result is empty). -/
theorem chapter_translator_empty_counterexample :
    ([] : List Char).length ≤ chunk_size
      ∧ translate_chapter_calls ([] : List Char) = 0
      ∧ translate_chapter (fun s => s) ([] : List Char) = [] := by
  refine ⟨by norm_num [chunk_size], ?_, ?_⟩
  · rw [translate_chapter_calls, splitChunks_nil]
    rfl
  · rw [translate_chapter, splitChunks_nil]
    rfl

/-! ### Batch coordinator

`translation_service.batch_translate_chapters` (lines 171-200): translate
each chapter in input order, then `translated_chapters.sort(key=lambda x:
x["id"])`.  Python's `list.sort` is a stable sort by the key; it is
modelled by `List.insertionSort` under the key order, which is also
stable, so the two agree as functions.  The inter-chapter
`asyncio.sleep(2)` calls affect timing only and are not part of the
value-level contract. -/

/-- A chapter as handled by the service layer: `id` is the Pydantic
`Chapter.id : int`, `content` the text. -/
structure Chapter where
  id : Int
  content : List Char
deriving DecidableEq

/-- The sort key order `key=lambda x: x["id"]`. -/
def chapterIdLe (a b : Chapter) : Prop := a.id ≤ b.id

instance : DecidableRel chapterIdLe := fun a b => Int.decLe a.id b.id

instance : IsTotal Chapter chapterIdLe := ⟨fun a b => Int.le_total a.id b.id⟩

instance : IsTrans Chapter chapterIdLe := ⟨fun _ _ _ h₁ h₂ => le_trans h₁ h₂⟩

/-- Function `batch_translate_chapters` on the success path, with `tr` the
per-chunk translation used by `translate_chapter`. -/
def batch_translate_chapters (tr : List Char → List Char)
    (chapters : List Chapter) : List Chapter :=
  List.insertionSort chapterIdLe
    (chapters.map fun c => ⟨c.id, translate_chapter tr c.content⟩)

theorem batch_translate_sorted (tr : List Char → List Char)
    (chapters : List Chapter) :
    List.Sorted chapterIdLe (batch_translate_chapters tr chapters) :=
  List.sorted_insertionSort chapterIdLe _

/-- Translation preserves ids, so the multiset of ids survives. -/
theorem batch_translate_ids (tr : List Char → List Char)
    (chapters : List Chapter) :
    List.Perm ((batch_translate_chapters tr chapters).map Chapter.id)
      (chapters.map Chapter.id) := by
  have h1 := List.perm_insertionSort chapterIdLe
    (chapters.map fun c => ⟨c.id, translate_chapter tr c.content⟩)
  have h2 := h1.map Chapter.id
  simpa using h2

/-- A sorted run with pairwise-distinct ids is strictly increasing. -/
theorem sorted_nodup_strict (l : List Chapter)
    (hs : List.Sorted chapterIdLe l) (hnd : (l.map Chapter.id).Nodup) :
    l.Pairwise fun a b => a.id < b.id := by
  have hne : l.Pairwise fun a b => a.id ≠ b.id := List.pairwise_map.mp hnd
  exact (hs.and hne).imp fun h => lt_of_le_of_ne h.1 h.2

instance : IsAntisymm Chapter (fun a b : Chapter => a.id < b.id) :=
  ⟨fun a b h₁ h₂ => absurd (lt_trans h₁ h₂) (lt_irrefl _)⟩

/-- C4 (amended from the counterexample): for chapters with
pairwise-distinct ids, any permutation of the input yields the same
output, sorted by chapter id — the returned sequence is independent of
dispatch order. -/
theorem batch_order_independence (tr : List Char → List Char)
    (l₁ l₂ : List Chapter) (hperm : List.Perm l₁ l₂)
    (hnd : (l₁.map Chapter.id).Nodup) :
    batch_translate_chapters tr l₁ = batch_translate_chapters tr l₂
      ∧ List.Sorted chapterIdLe (batch_translate_chapters tr l₂) := by
  refine ⟨?_, batch_translate_sorted tr l₂⟩
  have hnd₂ : (l₂.map Chapter.id).Nodup :=
    ((hperm.map Chapter.id).nodup_iff).mp hnd
  have hnd₁s : ((batch_translate_chapters tr l₁).map Chapter.id).Nodup :=
    ((batch_translate_ids tr l₁).nodup_iff).mpr hnd
  have hnd₂s : ((batch_translate_chapters tr l₂).map Chapter.id).Nodup :=
    ((batch_translate_ids tr l₂).nodup_iff).mpr hnd₂
  have hs₁ := sorted_nodup_strict _ (batch_translate_sorted tr l₁) hnd₁s
  have hs₂ := sorted_nodup_strict _ (batch_translate_sorted tr l₂) hnd₂s
  have hps : List.Perm (batch_translate_chapters tr l₁)
      (batch_translate_chapters tr l₂) := by
    rw [batch_translate_chapters, batch_translate_chapters]
    have hmf : List.Perm
        (List.map (fun c : Chapter =>
          (⟨c.id, translate_chapter tr c.content⟩ : Chapter)) l₁)
        (List.map (fun c : Chapter =>
          (⟨c.id, translate_chapter tr c.content⟩ : Chapter)) l₂) :=
      hperm.map _
    exact ((List.perm_insertionSort _ _).trans hmf).trans
      (List.perm_insertionSort _ _).symm
  exact List.eq_of_perm_of_sorted hps hs₁ hs₂

theorem batch_order_independence_witness :
    List.Perm
        [(⟨2, ['b']⟩ : Chapter), ⟨1, ['a']⟩] [(⟨1, ['a']⟩ : Chapter), ⟨2, ['b']⟩]
      ∧ ([(⟨2, ['b']⟩ : Chapter), ⟨1, ['a']⟩].map Chapter.id).Nodup
      ∧ (batch_translate_chapters (fun s => s) [⟨2, ['b']⟩, ⟨1, ['a']⟩]
            = batch_translate_chapters (fun s => s) [⟨1, ['a']⟩, ⟨2, ['b']⟩]
          ∧ List.Sorted chapterIdLe
              (batch_translate_chapters (fun s => s) [⟨1, ['a']⟩, ⟨2, ['b']⟩])) :=
  ⟨by decide, by decide,
    batch_order_independence (fun s => s) [⟨2, ['b']⟩, ⟨1, ['a']⟩]
      [⟨1, ['a']⟩, ⟨2, ['b']⟩] (by decide) (by decide)⟩

/-- C4, counterexample to the claim as stated over arbitrary chapter
lists: with a duplicated id, the stable sort preserves the permuted
arrival order among equal ids, so permuting the input changes the
returned sequence. -/
theorem batch_order_independence_counterexample :
    List.Perm
        [(⟨1, ['a']⟩ : Chapter), ⟨1, ['b']⟩] [(⟨1, ['b']⟩ : Chapter), ⟨1, ['a']⟩]
      ∧ batch_translate_chapters (fun s => s) [⟨1, ['a']⟩, ⟨1, ['b']⟩]
          ≠ batch_translate_chapters (fun s => s) [⟨1, ['b']⟩, ⟨1, ['a']⟩] := by
  have ha : translate_chapter (fun s => s) ['a'] = ['a'] :=
    (translate_chapter_single _ ['a'] (by simp) (by norm_num [chunk_size])).1
  have hb : translate_chapter (fun s => s) ['b'] = ['b'] :=
    (translate_chapter_single _ ['b'] (by simp) (by norm_num [chunk_size])).1
  constructor
  · decide
  · have e1 : batch_translate_chapters (fun s => s) [⟨1, ['a']⟩, ⟨1, ['b']⟩]
        = [⟨1, ['a']⟩, ⟨1, ['b']⟩] := by
      simp only [batch_translate_chapters, List.map_cons, List.map_nil, ha, hb]
      rfl
    have e2 : batch_translate_chapters (fun s => s) [⟨1, ['b']⟩, ⟨1, ['a']⟩]
        = [⟨1, ['b']⟩, ⟨1, ['a']⟩] := by
      simp only [batch_translate_chapters, List.map_cons, List.map_nil, ha, hb]
      rfl
    rw [e1, e2]
    decide

/-! ### Job tracker and pipeline driver

`translation_routes.py`: the `translation_jobs` dict is an association
list `String × Job`; `process_translation` (lines 40-132) is the Pipeline
Driver.  The `translate_chapter` call for the `(i+1)`-th loop iteration is
abstracted as `oracle i` (either a translated text or a raised exception
message), and document assembly (`create_book_document` /
`create_pdf_document`, including `os.makedirs`) as `docGen`.  The driver
runs on a single asyncio task: consecutive dict writes with no `await`
between them are observed atomically by pollers, so each such write group
is one state of the modelled trace. -/

/-- One record of the `translation_jobs` store. -/
structure Job where
  status : String
  progress : ℚ
  current_chapter : Nat
  total_chapters : Nat
  message : String
  target_language : String
  output_format : String
  file_path : Option String
deriving DecidableEq

/-- Schema `schemas.TranslationResponse`. -/
structure TranslationResponse where
  status : String
  message : String
  file_url : Option String
deriving DecidableEq

/-- Schema `schemas.TranslationProgress`, the status-poll payload. -/
structure TranslationProgress where
  status : String
  progress : ℚ
  current_chapter : Nat
  total_chapters : Nat
  message : String
deriving DecidableEq

/-- Python's `needle in hay` on strings. -/
def containsSub (hay needle : List Char) : Bool :=
  hay.tails.any fun t => needle.isPrefixOf t

/-- Line 88 / 127: `"rate limit" in str(e).lower() or "429" in str(e)`.
`str.lower()` is ASCII `Char.toLower` here; the needles are ASCII. -/
def isRateLimitMsg (s : String) : Bool :=
  containsSub (s.data.map Char.toLower) "rate limit".data
    || containsSub s.data "429".data

/-- Line 129: `"api key" in error_message.lower()`. -/
def isApiKeyMsg (s : String) : Bool :=
  containsSub (s.data.map Char.toLower) "api key".data

/-- The job record created at submission (lines 163-171). -/
def initialJob (n : Nat) (target_language output_format : String) : Job :=
  { status := "queued"
    progress := 0
    current_chapter := 0
    total_chapters := n
    message := "Trabalho em fila para processamento..."
    target_language := target_language
    output_format := output_format
    file_path := none }

/-- Endpoint `translate_book` (lines 135-190): validation, then job creation and
response.  The returned pair is the jobs store after the call and the
endpoint's outcome (`error` = the raised `HTTPException` detail). -/
def translate_book (jobs : List (String × Job)) (job_id : String)
    (chapters : List Chapter) (target_language output_format : String) :
    List (String × Job) × Except String TranslationResponse :=
  if chapters.isEmpty then
    (jobs, .error "No chapters provided")
  else if 100 < chapters.length then
    (jobs, .error "Maximum 100 chapters allowed")
  else
    ((job_id, initialJob chapters.length target_language output_format) :: jobs,
      .ok ⟨"queued",
        "Tradução iniciada. Use o endpoint de status para verificar o progresso.",
        some ("/api/translation/status/" ++ job_id)⟩)

/-- Endpoint `get_translation_status` (lines 193-212) on top of `get_job_status`
(lines 24-37): 404 for unknown ids, otherwise the job's current state. -/
def get_translation_status (jobs : List (String × Job)) (job_id : String) :
    Except String TranslationProgress :=
  match jobs.lookup job_id with
  | none => .error "Translation job not found"
  | some j =>
    .ok ⟨j.status, j.progress, j.current_chapter, j.total_chapters, j.message⟩

/-- Outcome of one `translate_chapter` call inside the driver's loop. -/
inductive ChapterOutcome where
  | ok (translated : List Char)
  | exn (msg : String)

/-- The per-chapter tracker write at lines 67-73 (`progress_pct = 0.1 +
(0.6 * (i / total_chapters))`, `current_chapter = i + 1`). -/
def chapterStart (j : Job) (N i : Nat) (cid : Int) : Job :=
  { j with
    status := "translating"
    progress := 1/10 + 6/10 * ((i : ℚ) / (N : ℚ))
    current_chapter := i + 1
    message := "Traduzindo capítulo " ++ toString cid ++ "/" ++ toString N ++ "..." }

/-- The message written while waiting out a rate limit (line 89). -/
def waitMsg (cid : Int) : String :=
  "Aguardando limite de API para o capítulo " ++ toString cid
    ++ ". Isso pode levar alguns minutos..."

/-- The `except` handler at lines 121-132: only `status` and `message`
are written. -/
def applyError (j : Job) (msg : String) : Job :=
  { j with
    status := "error"
    message :=
      if isRateLimitMsg msg then
        "Erro: Limite de API excedido. Tente novamente mais tarde ou reduza o tamanho do texto."
      else if isApiKeyMsg msg then
        "Erro: Problema com a chave da API. Verifique se a chave da API OpenAI está configurada corretamente."
      else "Erro: " ++ msg }

/-- The `for i, chapter in enumerate(chapters)` loop (lines 65-97).
Returns the list of tracker states written inside the loop, the state at
loop exit, and either the collected translations or the re-raised
exception message.  On a rate-limit-classified exception the code sets the
wait message, executes `i -= 1; continue` — which does not affect the
`enumerate` counter, so the failed chapter is simply skipped and never
appended — and proceeds with the next chapter. -/
def processLoop (oracle : Nat → ChapterOutcome) (N : Nat) :
    Nat → List Chapter → Job → List Chapter →
      List Job × Job × Except String (List Chapter)
  | _, [], j, acc => ([], j, .ok acc.reverse)
  | i, c :: rest, j, acc =>
    match oracle i with
    | .ok translated =>
      let r := processLoop oracle N (i + 1) rest (chapterStart j N i c.id)
        (⟨c.id, translated⟩ :: acc)
      (chapterStart j N i c.id :: r.1, r.2)
    | .exn msg =>
      if isRateLimitMsg msg then
        let r := processLoop oracle N (i + 1) rest
          { chapterStart j N i c.id with message := waitMsg c.id } acc
        (chapterStart j N i c.id ::
          { chapterStart j N i c.id with message := waitMsg c.id } :: r.1, r.2)
      else
        ([chapterStart j N i c.id], chapterStart j N i c.id, .error msg)

/-- The formatting-phase tracker write (lines 100-102). -/
def formattingJob (j : Job) : Job :=
  { j with status := "formatting", progress := 7/10,
           message := "Formatando documento..." }

/-- The completion tracker write (lines 116-119). -/
def completedJob (j : Job) (path : String) : Job :=
  { j with status := "completed", progress := 1,
           message := "Tradução e formatação concluídas!", file_path := some path }

/-- The tracker write at lines 56-59, entering the `translating` phase. -/
def startJob (j0 : Job) : Job :=
  { j0 with status := "translating", progress := 1/10,
            message := "Iniciando tradução dos capítulos..." }

/-- Lines 99-132: what follows the chapter loop.  On a loop exception the
outer handler writes the error state; otherwise the formatting state is
written, the document generated, and either completion or the error state
is written. -/
def assemble (r : List Job × Job × Except String (List Chapter))
    (docGen : List Chapter → Except String String) (jStart : Job) :
    List Job × Option (List Chapter) :=
  match r.2.2 with
  | .error msg => (jStart :: r.1 ++ [applyError r.2.1 msg], none)
  | .ok translated =>
    match docGen translated with
    | .error msg =>
      (jStart :: r.1 ++ [formattingJob r.2.1, applyError (formattingJob r.2.1) msg],
        none)
    | .ok path =>
      (jStart :: r.1 ++ [formattingJob r.2.1, completedJob (formattingJob r.2.1) path],
        some translated)

/-- Driver `process_translation` (lines 40-132): the full pipeline run starting
from job state `j0`.  Returns the trace of tracker states in write order
and, when the run completes, the assembled chapter list handed to the
document generator (`none` on an errored run). -/
def process_translation (oracle : Nat → ChapterOutcome)
    (docGen : List Chapter → Except String String)
    (chapters : List Chapter) (j0 : Job) :
    List Job × Option (List Chapter) :=
  assemble (processLoop oracle chapters.length 0 chapters (startJob j0) [])
    docGen (startJob j0)

/-- C8: an empty chapter list, or one longer than the 100-chapter
maximum, is rejected with a validation error and the jobs store is left
untouched; a valid submission responds `queued` and creates exactly one
new job record with status `queued`, progress `0`, `current_chapter = 0`
and `total_chapters` equal to the number of submitted chapters. -/
theorem submission_validation (jobs : List (String × Job)) (job_id : String)
    (chapters : List Chapter) (tl fmt : String) :
    ((chapters = [] ∨ 100 < chapters.length) →
        (translate_book jobs job_id chapters tl fmt).1 = jobs
          ∧ ∃ msg, (translate_book jobs job_id chapters tl fmt).2
              = .error msg)
      ∧ (chapters ≠ [] → chapters.length ≤ 100 →
          (translate_book jobs job_id chapters tl fmt).1
              = (job_id, initialJob chapters.length tl fmt) :: jobs
            ∧ (translate_book jobs job_id chapters tl fmt).2
                = .ok ⟨"queued",
                    "Tradução iniciada. Use o endpoint de status para verificar o progresso.",
                    some ("/api/translation/status/" ++ job_id)⟩
            ∧ (initialJob chapters.length tl fmt).status = "queued"
            ∧ (initialJob chapters.length tl fmt).progress = 0
            ∧ (initialJob chapters.length tl fmt).current_chapter = 0
            ∧ (initialJob chapters.length tl fmt).total_chapters
                = chapters.length) := by
  constructor
  · rintro (hnil | hbig)
    · subst hnil
      exact ⟨rfl, "No chapters provided", rfl⟩
    · have hempty : chapters.isEmpty = false := by
        cases chapters with
        | nil => simp at hbig
        | cons c cs => rfl
      rw [translate_book, hempty, if_neg Bool.false_ne_true, if_pos hbig]
      exact ⟨rfl, "Maximum 100 chapters allowed", rfl⟩
  · intro hne hle
    have hempty : chapters.isEmpty = false := by
      cases chapters with
      | nil => exact absurd rfl hne
      | cons c cs => rfl
    rw [translate_book, hempty, if_neg Bool.false_ne_true,
      if_neg (not_lt.mpr hle)]
    exact ⟨rfl, rfl, rfl, rfl, rfl, rfl⟩

theorem submission_validation_witness :
    ((([] : List Chapter) = [] ∨ 100 < ([] : List Chapter).length) →
        (translate_book [] "job-0" [] "pt" "docx").1 = []
          ∧ ∃ msg, (translate_book [] "job-0" [] "pt" "docx").2 = .error msg)
      ∧ (([(⟨1, ['a']⟩ : Chapter)] ≠ [] →
          [(⟨1, ['a']⟩ : Chapter)].length ≤ 100 →
          (translate_book [] "job-1" [⟨1, ['a']⟩] "pt" "docx").1
              = [("job-1", initialJob 1 "pt" "docx")]
            ∧ (translate_book [] "job-1" [⟨1, ['a']⟩] "pt" "docx").2
                = .ok ⟨"queued",
                    "Tradução iniciada. Use o endpoint de status para verificar o progresso.",
                    some ("/api/translation/status/" ++ "job-1")⟩
            ∧ (initialJob 1 "pt" "docx").status = "queued"
            ∧ (initialJob 1 "pt" "docx").progress = 0
            ∧ (initialJob 1 "pt" "docx").current_chapter = 0
            ∧ (initialJob 1 "pt" "docx").total_chapters
                = [(⟨1, ['a']⟩ : Chapter)].length)) :=
  ⟨(submission_validation [] "job-0" [] "pt" "docx").1,
    (submission_validation [] "job-1" [⟨1, ['a']⟩] "pt" "docx").2⟩

/-- A translation outcome oracle under which chapter 1 (loop index 0)
raises the rate-limit error that `translate_text_with_retry` produces
after exhausting its retries, and every other chapter succeeds. -/
def dropOracle : Nat → ChapterOutcome :=
  fun i => if i = 0 then
    .exn "Failed after 5 retries: Rate limit exceeded with OpenAI API. Try again later."
  else .ok ['x']

/-- C1: the invariant fails in the code.  Submitting the two chapters
`1` and `2`, where translating chapter `1` raises a rate-limit error and
chapter `2` succeeds, ends with terminal status `completed` while the
assembled result contains only chapter `2` — the `i -= 1; continue`
"retry" at lines 93-95 does not affect the `enumerate` counter, so the
failed chapter is silently dropped instead of retried (the adjacent
comment says "Try again with this chapter"). -/
theorem rate_limited_chapter_silently_dropped :
    ((process_translation dropOracle (fun _ => .ok "output/j.docx")
        [⟨1, ['a']⟩, ⟨2, ['b']⟩] (initialJob 2 "pt" "docx")).1.getLast?.map
          Job.status = some "completed")
      ∧ (process_translation dropOracle (fun _ => .ok "output/j.docx")
          [⟨1, ['a']⟩, ⟨2, ['b']⟩] (initialJob 2 "pt" "docx")).2
          = some [⟨2, ['x']⟩] := by
  constructor <;> rfl

theorem cast_div_nonneg (i N : Nat) : 0 ≤ (i : ℚ) / (N : ℚ) := by positivity

theorem cast_div_le_one (i N : Nat) (h : i ≤ N) : (i : ℚ) / (N : ℚ) ≤ 1 := by
  rcases Nat.eq_zero_or_pos N with h0 | hpos
  · subst h0; simp
  · rw [div_le_one (by exact_mod_cast hpos)]
    exact_mod_cast h

theorem cast_div_mono (i N : Nat) :
    (i : ℚ) / (N : ℚ) ≤ ((i + 1 : Nat) : ℚ) / (N : ℚ) := by
  rcases Nat.eq_zero_or_pos N with h0 | hpos
  · subst h0; simp
  · rw [div_le_div_iff_of_pos_right (by exact_mod_cast hpos)]
    exact_mod_cast Nat.le_succ i

theorem chapterStart_progress (j : Job) (N i : Nat) (cid : Int) :
    (chapterStart j N i cid).progress = 1/10 + 6/10 * ((i : ℚ) / (N : ℚ)) := rfl

theorem chapterProgress_lo (N i : Nat) :
    (1 : ℚ)/10 ≤ 1/10 + 6/10 * ((i : ℚ) / (N : ℚ)) := by
  have := cast_div_nonneg i N
  linarith

theorem chapterProgress_hi (N i : Nat) (h : i ≤ N) :
    (1 : ℚ)/10 + 6/10 * ((i : ℚ) / (N : ℚ)) ≤ 7/10 := by
  have := cast_div_le_one i N h
  linarith

/-- Trace invariant of the chapter loop: entering iteration `i` with
`i + chs.length = N` and a state whose progress lies between `0.1` and
the iteration-`i` checkpoint, the states written by the loop are
monotonically non-decreasing in progress, all lie in `[0.1, 0.7]` with
status `translating`, and the loop-exit state closes the trace. -/
theorem processLoop_trace (oracle : Nat → ChapterOutcome) (N : Nat) :
    ∀ (chs : List Chapter) (i : Nat) (j : Job) (acc : List Chapter),
      i + chs.length = N →
      1/10 ≤ j.progress →
      j.progress ≤ 1/10 + 6/10 * ((i : ℚ) / (N : ℚ)) →
      List.Chain' (fun a b : Job => a.progress ≤ b.progress)
          (j :: (processLoop oracle N i chs j acc).1)
        ∧ (j :: (processLoop oracle N i chs j acc).1).getLast?
            = some (processLoop oracle N i chs j acc).2.1
        ∧ (∀ x ∈ (processLoop oracle N i chs j acc).1,
            1/10 ≤ x.progress ∧ x.progress ≤ 7/10 ∧ x.status = "translating")
        ∧ 1/10 ≤ (processLoop oracle N i chs j acc).2.1.progress
        ∧ (processLoop oracle N i chs j acc).2.1.progress ≤ 7/10 := by
  intro chs
  induction chs with
  | nil =>
    intro i j acc hN hlo hup
    have hiN : i = N := by simpa using hN
    subst hiN
    refine ⟨List.chain'_singleton j, rfl, by simp [processLoop], hlo, ?_⟩
    have h1 := cast_div_le_one i i le_rfl
    have h2 : 6/10 * ((i : ℚ) / (i : ℚ)) ≤ 6/10 * 1 := by
      apply mul_le_mul_of_nonneg_left h1 (by norm_num)
    calc j.progress ≤ 1/10 + 6/10 * ((i : ℚ) / (i : ℚ)) := hup
    _ ≤ 7/10 := by linarith
  | cons c rest ih =>
    intro i j acc hN hlo hup
    have hiN : i + 1 ≤ N := by
      simp only [List.length_cons] at hN
      omega
    have hup1 : (chapterStart j N i c.id).progress
        ≤ 1/10 + 6/10 * (((i + 1 : Nat) : ℚ) / (N : ℚ)) := by
      rw [chapterStart_progress]
      have := cast_div_mono i N
      have h2 : 6/10 * ((i : ℚ) / (N : ℚ))
          ≤ 6/10 * (((i + 1 : Nat) : ℚ) / (N : ℚ)) :=
        mul_le_mul_of_nonneg_left this (by norm_num)
      linarith
    have hlo1 : 1/10 ≤ (chapterStart j N i c.id).progress := by
      rw [chapterStart_progress]; exact chapterProgress_lo N i
    have hhi1 : (chapterStart j N i c.id).progress ≤ 7/10 := by
      rw [chapterStart_progress]
      exact chapterProgress_hi N i (by omega)
    have hjcs : j.progress ≤ (chapterStart j N i c.id).progress := by
      rw [chapterStart_progress]; exact hup
    cases horacle : oracle i with
    | ok translated =>
      simp only [processLoop, horacle]
      obtain ⟨hA, hB, hC, hD1, hD2⟩ :=
        ih (i + 1) (chapterStart j N i c.id) (⟨c.id, translated⟩ :: acc)
          (by simp only [List.length_cons] at hN; omega) hlo1 hup1
      refine ⟨List.chain'_cons.mpr ⟨hjcs, hA⟩, ?_, ?_, hD1, hD2⟩
      · rw [List.getLast?_cons_cons]
        exact hB
      · intro x hx
        rcases List.mem_cons.mp hx with hx | hx
        · subst hx; exact ⟨hlo1, hhi1, rfl⟩
        · exact hC x hx
    | exn msg =>
      by_cases hrl : isRateLimitMsg msg
      · simp only [processLoop, horacle, hrl, if_true]
        obtain ⟨hA, hB, hC, hD1, hD2⟩ :=
          ih (i + 1) { chapterStart j N i c.id with message := waitMsg c.id } acc
            (by simp only [List.length_cons] at hN; omega) hlo1 hup1
        refine ⟨?_, ?_, ?_, hD1, hD2⟩
        · exact List.chain'_cons.mpr ⟨hjcs, List.chain'_cons.mpr ⟨le_refl _, hA⟩⟩
        · rw [List.getLast?_cons_cons, List.getLast?_cons_cons]
          exact hB
        · intro x hx
          rcases List.mem_cons.mp hx with hx | hx
          · subst hx; exact ⟨hlo1, hhi1, rfl⟩
          rcases List.mem_cons.mp hx with hx | hx
          · subst hx; exact ⟨hlo1, hhi1, rfl⟩
          · exact hC x hx
      · simp only [processLoop, horacle, hrl, if_false]
        refine ⟨List.chain'_cons.mpr ⟨hjcs, List.chain'_singleton _⟩, rfl, ?_,
          hlo1, hhi1⟩
        intro x hx
        rcases List.mem_cons.mp hx with hx | hx
        · subst hx; exact ⟨hlo1, hhi1, rfl⟩
        · simp at hx

theorem applyError_fields (j : Job) (msg : String) :
    (applyError j msg).status = "error"
      ∧ (applyError j msg).progress = j.progress
      ∧ (applyError j msg).current_chapter = j.current_chapter
      ∧ (applyError j msg).total_chapters = j.total_chapters
      ∧ ∃ rest, (applyError j msg).message = "Erro" ++ rest := by
  refine ⟨rfl, rfl, rfl, rfl, ?_⟩
  by_cases h1 : isRateLimitMsg msg
  · exact ⟨": Limite de API excedido. Tente novamente mais tarde ou reduza o tamanho do texto.",
      by simp only [applyError, if_pos h1]; rfl⟩
  · by_cases h2 : isApiKeyMsg msg
    · exact ⟨": Problema com a chave da API. Verifique se a chave da API OpenAI está configurada corretamente.",
        by simp only [applyError, if_neg h1, if_pos h2]; rfl⟩
    · exact ⟨": " ++ msg,
        by simp only [applyError, if_neg h1, if_neg h2]
           rw [← String.append_assoc]
           rfl⟩


/-- C9: whenever the chapter loop or the document-assembly step fails, the
exception is caught at the driver boundary and the final tracker state has
terminal status `error` with a human-readable message starting with
"Erro"; and polling any known job id always succeeds, returning the job's
current state — failure is indicated only through the status value. -/
theorem pipeline_error_capture (oracle : Nat → ChapterOutcome)
    (docGen : List Chapter → Except String String)
    (chapters : List Chapter) (j0 : Job)
    (hfail : (process_translation oracle docGen chapters j0).2 = none) :
    (∃ F, (process_translation oracle docGen chapters j0).1.getLast? = some F
        ∧ F.status = "error"
        ∧ ∃ rest, F.message = "Erro" ++ rest)
      ∧ ∀ (jobs : List (String × Job)) (jid : String) (j : Job),
          jobs.lookup jid = some j →
          get_translation_status jobs jid
            = .ok ⟨j.status, j.progress, j.current_chapter, j.total_chapters,
                j.message⟩ := by
  constructor
  · rcases hres : (processLoop oracle chapters.length 0 chapters (startJob j0) []).2.2
      with msg | translated
    · refine ⟨applyError
          (processLoop oracle chapters.length 0 chapters (startJob j0) []).2.1 msg,
        ?_, (applyError_fields _ msg).1, (applyError_fields _ msg).2.2.2.2⟩
      simp only [process_translation, assemble, hres]
      show ((startJob j0 ::
          (processLoop oracle chapters.length 0 chapters (startJob j0) []).1)
          ++ [applyError _ msg]).getLast? = _
      exact List.getLast?_concat _
    · rcases hdoc : docGen translated with dmsg | path
      · refine ⟨applyError (formattingJob
            (processLoop oracle chapters.length 0 chapters (startJob j0) []).2.1) dmsg,
          ?_, (applyError_fields _ dmsg).1, (applyError_fields _ dmsg).2.2.2.2⟩
        simp only [process_translation, assemble, hres, hdoc]
        rw [show (startJob j0 ::
            (processLoop oracle chapters.length 0 chapters (startJob j0) []).1
            ++ [formattingJob
                  (processLoop oracle chapters.length 0 chapters (startJob j0) []).2.1,
                applyError (formattingJob
                  (processLoop oracle chapters.length 0 chapters (startJob j0) []).2.1)
                  dmsg])
          = ((startJob j0 ::
              (processLoop oracle chapters.length 0 chapters (startJob j0) []).1
              ++ [formattingJob
                    (processLoop oracle chapters.length 0 chapters (startJob j0) []).2.1])
              ++ [applyError (formattingJob
                    (processLoop oracle chapters.length 0 chapters (startJob j0) []).2.1)
                    dmsg]) from by simp]
        exact List.getLast?_concat _
      · exfalso
        simp only [process_translation, assemble, hres, hdoc] at hfail
        exact Option.noConfusion hfail
  · intro jobs jid j hj
    simp only [get_translation_status, hj]


/-- C10: when a run fails, the final tracker state is `applyError` of the
state held at the moment of failure (the second-to-last trace entry):
only `status` and `message` change, while `progress`, `current_chapter`
and `total_chapters` retain their values — in particular progress stays
in `[0.1, 0.7]`, so it is neither reset to `0` nor ever `1.0` on an
errored job. -/
theorem error_transition_frame (oracle : Nat → ChapterOutcome)
    (docGen : List Chapter → Except String String)
    (chapters : List Chapter) (j0 : Job)
    (hfail : (process_translation oracle docGen chapters j0).2 = none) :
    ∃ prev msg,
      (process_translation oracle docGen chapters j0).1.dropLast.getLast?
          = some prev
        ∧ (process_translation oracle docGen chapters j0).1.getLast?
            = some (applyError prev msg)
        ∧ (applyError prev msg).progress = prev.progress
        ∧ (applyError prev msg).current_chapter = prev.current_chapter
        ∧ (applyError prev msg).total_chapters = prev.total_chapters
        ∧ 1/10 ≤ prev.progress ∧ prev.progress ≤ 7/10 := by
  obtain ⟨hA, hB, hC, hD1, hD2⟩ :=
    processLoop_trace oracle chapters.length chapters 0 (startJob j0) []
      (by simp) (le_refl _) (by
        rw [show (startJob j0).progress = 1/10 from rfl]
        have := cast_div_nonneg 0 chapters.length
        have h2 : (0 : ℚ) ≤ 6/10 * (((0 : Nat) : ℚ) / (chapters.length : ℚ)) := by
          positivity
        linarith)
  rcases hres : (processLoop oracle chapters.length 0 chapters (startJob j0) []).2.2
    with msg | translated
  · refine ⟨(processLoop oracle chapters.length 0 chapters (startJob j0) []).2.1,
      msg, ?_, ?_, rfl, rfl, rfl, hD1, hD2⟩
    · simp only [process_translation, assemble, hres]
      rw [show (startJob j0 ::
          (processLoop oracle chapters.length 0 chapters (startJob j0) []).1
          ++ [applyError
              (processLoop oracle chapters.length 0 chapters (startJob j0) []).2.1
              msg])
        = ((startJob j0 ::
            (processLoop oracle chapters.length 0 chapters (startJob j0) []).1)
            ++ [applyError
                (processLoop oracle chapters.length 0 chapters (startJob j0) []).2.1
                msg]) from rfl]
      rw [List.dropLast_concat]
      exact hB
    · simp only [process_translation, assemble, hres]
      show ((startJob j0 ::
          (processLoop oracle chapters.length 0 chapters (startJob j0) []).1)
          ++ [applyError _ msg]).getLast? = _
      exact List.getLast?_concat _
  · rcases hdoc : docGen translated with dmsg | path
    · refine ⟨formattingJob
          (processLoop oracle chapters.length 0 chapters (startJob j0) []).2.1,
        dmsg, ?_, ?_, rfl, rfl, rfl, by norm_num [formattingJob], ?_⟩
      · simp only [process_translation, assemble, hres, hdoc]
        rw [show (startJob j0 ::
            (processLoop oracle chapters.length 0 chapters (startJob j0) []).1
            ++ [formattingJob
                  (processLoop oracle chapters.length 0 chapters (startJob j0) []).2.1,
                applyError (formattingJob
                  (processLoop oracle chapters.length 0 chapters (startJob j0) []).2.1)
                  dmsg])
          = ((startJob j0 ::
              (processLoop oracle chapters.length 0 chapters (startJob j0) []).1
              ++ [formattingJob
                    (processLoop oracle chapters.length 0 chapters (startJob j0) []).2.1])
              ++ [applyError (formattingJob
                    (processLoop oracle chapters.length 0 chapters (startJob j0) []).2.1)
                    dmsg]) from by simp]
        rw [List.dropLast_concat]
        show ((startJob j0 ::
            (processLoop oracle chapters.length 0 chapters (startJob j0) []).1)
            ++ [formattingJob _]).getLast? = _
        exact List.getLast?_concat _
      · simp only [process_translation, assemble, hres, hdoc]
        rw [show (startJob j0 ::
            (processLoop oracle chapters.length 0 chapters (startJob j0) []).1
            ++ [formattingJob
                  (processLoop oracle chapters.length 0 chapters (startJob j0) []).2.1,
                applyError (formattingJob
                  (processLoop oracle chapters.length 0 chapters (startJob j0) []).2.1)
                  dmsg])
          = ((startJob j0 ::
              (processLoop oracle chapters.length 0 chapters (startJob j0) []).1
              ++ [formattingJob
                    (processLoop oracle chapters.length 0 chapters (startJob j0) []).2.1])
              ++ [applyError (formattingJob
                    (processLoop oracle chapters.length 0 chapters (startJob j0) []).2.1)
                    dmsg]) from by simp]
        exact List.getLast?_concat _
      · rw [show (formattingJob
            (processLoop oracle chapters.length 0 chapters (startJob j0) []).2.1).progress
          = 7/10 from rfl]
    · exfalso
      simp only [process_translation, assemble, hres, hdoc] at hfail
      exact Option.noConfusion hfail


/-- C6: along any pipeline run the tracker's progress values are
non-decreasing, starting from `0.1` when translation starts; every
`translating` state lies in `[0.1, 0.7]`, every `formatting` state equals
`0.7`, and progress reaches `1.0` only in the `completed` state. -/
theorem progress_monotonicity (oracle : Nat → ChapterOutcome)
    (docGen : List Chapter → Except String String)
    (chapters : List Chapter) (j0 : Job) (h0 : j0.progress ≤ 1/10) :
    List.Chain' (fun a b : Job => a.progress ≤ b.progress)
        (j0 :: (process_translation oracle docGen chapters j0).1)
      ∧ (process_translation oracle docGen chapters j0).1.head?.map Job.progress
          = some (1/10)
      ∧ (∀ x ∈ (process_translation oracle docGen chapters j0).1,
          x.progress = 1 → x.status = "completed")
      ∧ (∀ x ∈ (process_translation oracle docGen chapters j0).1,
          x.status = "translating" → 1/10 ≤ x.progress ∧ x.progress ≤ 7/10)
      ∧ (∀ x ∈ (process_translation oracle docGen chapters j0).1,
          x.status = "formatting" → x.progress = 7/10) := by
  obtain ⟨hA, hB, hC, hD1, hD2⟩ :=
    processLoop_trace oracle chapters.length chapters 0 (startJob j0) []
      (by simp) (le_refl _) (by
        rw [show (startJob j0).progress = 1/10 from rfl]
        have h2 : (0 : ℚ) ≤ 6/10 * (((0 : Nat) : ℚ) / (chapters.length : ℚ)) := by
          positivity
        linarith)
  rw [show process_translation oracle docGen chapters j0
      = assemble (processLoop oracle chapters.length 0 chapters (startJob j0) [])
          docGen (startJob j0) from rfl]
  have h0s : j0.progress ≤ (startJob j0).progress := h0
  generalize hTRP : processLoop oracle chapters.length 0 chapters (startJob j0) []
    = RR at hA hB hC hD1 hD2 ⊢
  obtain ⟨TR, JF, res⟩ := RR
  dsimp only at hA hB hC hD1 hD2 ⊢
  rcases res with msg | translated
  · -- chapter loop raised: tail is [applyError JF msg]
    simp only [assemble]
    refine ⟨?_, rfl, ?_, ?_, ?_⟩
    · show List.Chain' (fun a b : Job => a.progress ≤ b.progress)
        ((j0 :: startJob j0 :: TR) ++ [applyError JF msg])
      refine List.chain'_append.mpr ⟨List.chain'_cons.mpr ⟨h0s, hA⟩,
        List.chain'_singleton _, ?_⟩
      intro x hx y hy
      rw [List.getLast?_cons_cons, hB, Option.mem_def, Option.some_inj] at hx
      simp only [List.head?_cons, Option.mem_def, Option.some_inj] at hy
      subst hx; subst hy
      exact le_of_eq rfl
    · intro x hx hprog
      rcases List.mem_cons.mp hx with hx | hx
      · subst hx
        have : (1 : ℚ)/10 = 1 := hprog
        norm_num at this
      rcases List.mem_append.mp hx with hx | hx
      · have := (hC x hx).2.1
        rw [hprog] at this
        norm_num at this
      · simp only [List.mem_singleton] at hx
        subst hx
        have h1 : JF.progress = 1 := hprog
        rw [h1] at hD2
        norm_num at hD2
    · intro x hx hst
      rcases List.mem_cons.mp hx with hx | hx
      · subst hx
        constructor <;> norm_num [startJob]
      rcases List.mem_append.mp hx with hx | hx
      · exact ⟨(hC x hx).1, (hC x hx).2.1⟩
      · simp only [List.mem_singleton] at hx
        subst hx
        have h1 : ("error" : String) = "translating" := hst
        exact absurd h1 (by decide)
    · intro x hx hst
      rcases List.mem_cons.mp hx with hx | hx
      · subst hx
        have h1 : ("translating" : String) = "formatting" := hst
        exact absurd h1 (by decide)
      rcases List.mem_append.mp hx with hx | hx
      · have h1 := (hC x hx).2.2
        rw [hst] at h1
        exact absurd h1 (by decide)
      · simp only [List.mem_singleton] at hx
        subst hx
        have h1 : ("error" : String) = "formatting" := hst
        exact absurd h1 (by decide)
  · rcases hdoc : docGen translated with dmsg | path
    · -- document generation raised: tail is [formattingJob JF, applyError _ dmsg]
      simp only [assemble, hdoc]
      refine ⟨?_, rfl, ?_, ?_, ?_⟩
      · show List.Chain' (fun a b : Job => a.progress ≤ b.progress)
          ((j0 :: startJob j0 :: TR)
            ++ [formattingJob JF, applyError (formattingJob JF) dmsg])
        refine List.chain'_append.mpr ⟨List.chain'_cons.mpr ⟨h0s, hA⟩,
          List.chain'_cons.mpr ⟨le_of_eq rfl, List.chain'_singleton _⟩, ?_⟩
        intro x hx y hy
        rw [List.getLast?_cons_cons, hB, Option.mem_def, Option.some_inj] at hx
        simp only [List.head?_cons, Option.mem_def, Option.some_inj] at hy
        subst hx; subst hy
        exact hD2
      · intro x hx hprog
        rcases List.mem_cons.mp hx with hx | hx
        · subst hx
          have : (1 : ℚ)/10 = 1 := hprog
          norm_num at this
        rcases List.mem_append.mp hx with hx | hx
        · have := (hC x hx).2.1
          rw [hprog] at this
          norm_num at this
        · rcases List.mem_cons.mp hx with hx | hx
          · subst hx
            have h1 : (7 : ℚ)/10 = 1 := hprog
            norm_num at h1
          · simp only [List.mem_singleton] at hx
            subst hx
            have h1 : (7 : ℚ)/10 = 1 := hprog
            norm_num at h1
      · intro x hx hst
        rcases List.mem_cons.mp hx with hx | hx
        · subst hx
          constructor <;> norm_num [startJob]
        rcases List.mem_append.mp hx with hx | hx
        · exact ⟨(hC x hx).1, (hC x hx).2.1⟩
        · rcases List.mem_cons.mp hx with hx | hx
          · subst hx
            have h1 : ("formatting" : String) = "translating" := hst
            exact absurd h1 (by decide)
          · simp only [List.mem_singleton] at hx
            subst hx
            have h1 : ("error" : String) = "translating" := hst
            exact absurd h1 (by decide)
      · intro x hx hst
        rcases List.mem_cons.mp hx with hx | hx
        · subst hx
          have h1 : ("translating" : String) = "formatting" := hst
          exact absurd h1 (by decide)
        rcases List.mem_append.mp hx with hx | hx
        · have h1 := (hC x hx).2.2
          rw [hst] at h1
          exact absurd h1 (by decide)
        · rcases List.mem_cons.mp hx with hx | hx
          · subst hx
            exact rfl
          · simp only [List.mem_singleton] at hx
            subst hx
            have h1 : ("error" : String) = "formatting" := hst
            exact absurd h1 (by decide)
    · -- success: tail is [formattingJob JF, completedJob _ path]
      simp only [assemble, hdoc]
      refine ⟨?_, rfl, ?_, ?_, ?_⟩
      · show List.Chain' (fun a b : Job => a.progress ≤ b.progress)
          ((j0 :: startJob j0 :: TR)
            ++ [formattingJob JF, completedJob (formattingJob JF) path])
        refine List.chain'_append.mpr ⟨List.chain'_cons.mpr ⟨h0s, hA⟩,
          List.chain'_cons.mpr ⟨by norm_num [formattingJob, completedJob],
            List.chain'_singleton _⟩, ?_⟩
        intro x hx y hy
        rw [List.getLast?_cons_cons, hB, Option.mem_def, Option.some_inj] at hx
        simp only [List.head?_cons, Option.mem_def, Option.some_inj] at hy
        subst hx; subst hy
        exact hD2
      · intro x hx hprog
        rcases List.mem_cons.mp hx with hx | hx
        · subst hx
          have : (1 : ℚ)/10 = 1 := hprog
          norm_num at this
        rcases List.mem_append.mp hx with hx | hx
        · have := (hC x hx).2.1
          rw [hprog] at this
          norm_num at this
        · rcases List.mem_cons.mp hx with hx | hx
          · subst hx
            have h1 : (7 : ℚ)/10 = 1 := hprog
            norm_num at h1
          · simp only [List.mem_singleton] at hx
            subst hx
            exact rfl
      · intro x hx hst
        rcases List.mem_cons.mp hx with hx | hx
        · subst hx
          constructor <;> norm_num [startJob]
        rcases List.mem_append.mp hx with hx | hx
        · exact ⟨(hC x hx).1, (hC x hx).2.1⟩
        · rcases List.mem_cons.mp hx with hx | hx
          · subst hx
            have h1 : ("formatting" : String) = "translating" := hst
            exact absurd h1 (by decide)
          · simp only [List.mem_singleton] at hx
            subst hx
            have h1 : ("completed" : String) = "translating" := hst
            exact absurd h1 (by decide)
      · intro x hx hst
        rcases List.mem_cons.mp hx with hx | hx
        · subst hx
          have h1 : ("translating" : String) = "formatting" := hst
          exact absurd h1 (by decide)
        rcases List.mem_append.mp hx with hx | hx
        · have h1 := (hC x hx).2.2
          rw [hst] at h1
          exact absurd h1 (by decide)
        · rcases List.mem_cons.mp hx with hx | hx
          · subst hx
            exact rfl
          · simp only [List.mem_singleton] at hx
            subst hx
            have h1 : ("completed" : String) = "formatting" := hst
            exact absurd h1 (by decide)


/-- A single-chapter scenario where every translation succeeds. -/
def wOracleOk : Nat → ChapterOutcome := fun _ => .ok ['x']

/-- A scenario where every translation raises an unclassified error. -/
def wOracleBoom : Nat → ChapterOutcome := fun _ => .exn "boom"

/-- A document generator that succeeds. -/
def wDocOk : List Chapter → Except String String := fun _ => .ok "output/w.docx"

/-- A document generator that raises. -/
def wDocFail : List Chapter → Except String String := fun _ => .error "disk full"

/-- A freshly created single-chapter job record. -/
def wJob : Job := initialJob 1 "pt" "docx"

/-- The single-chapter submission. -/
def wChapters : List Chapter := [⟨1, ['a']⟩]

theorem pipeline_error_capture_witness :
    ((process_translation wOracleBoom wDocOk wChapters wJob).2 = none)
      ∧ ((∃ F, (process_translation wOracleBoom wDocOk wChapters wJob).1.getLast?
              = some F
            ∧ F.status = "error"
            ∧ ∃ rest, F.message = "Erro" ++ rest)
          ∧ ∀ (jobs : List (String × Job)) (jid : String) (j : Job),
              jobs.lookup jid = some j →
              get_translation_status jobs jid
                = .ok ⟨j.status, j.progress, j.current_chapter,
                    j.total_chapters, j.message⟩) :=
  ⟨rfl, pipeline_error_capture wOracleBoom wDocOk wChapters wJob rfl⟩

theorem error_transition_frame_witness :
    ((process_translation wOracleOk wDocFail wChapters wJob).2 = none)
      ∧ (∃ prev msg,
          (process_translation wOracleOk wDocFail wChapters wJob).1.dropLast.getLast?
              = some prev
            ∧ (process_translation wOracleOk wDocFail wChapters wJob).1.getLast?
                = some (applyError prev msg)
            ∧ (applyError prev msg).progress = prev.progress
            ∧ (applyError prev msg).current_chapter = prev.current_chapter
            ∧ (applyError prev msg).total_chapters = prev.total_chapters
            ∧ 1/10 ≤ prev.progress ∧ prev.progress ≤ 7/10) :=
  ⟨rfl, error_transition_frame wOracleOk wDocFail wChapters wJob rfl⟩

theorem progress_monotonicity_witness :
    (wJob.progress ≤ 1/10)
      ∧ (List.Chain' (fun a b : Job => a.progress ≤ b.progress)
            (wJob :: (process_translation wOracleOk wDocOk wChapters wJob).1)
          ∧ (process_translation wOracleOk wDocOk wChapters wJob).1.head?.map
              Job.progress = some (1/10)
          ∧ (∀ x ∈ (process_translation wOracleOk wDocOk wChapters wJob).1,
              x.progress = 1 → x.status = "completed")
          ∧ (∀ x ∈ (process_translation wOracleOk wDocOk wChapters wJob).1,
              x.status = "translating" → 1/10 ≤ x.progress ∧ x.progress ≤ 7/10)
          ∧ (∀ x ∈ (process_translation wOracleOk wDocOk wChapters wJob).1,
              x.status = "formatting" → x.progress = 7/10)) :=
  ⟨by norm_num [wJob, initialJob],
    progress_monotonicity wOracleOk wDocOk wChapters wJob
      (by norm_num [wJob, initialJob])⟩

end Translator
